import Mathlib

/-!
Verification of the LAB2 survey/visualization pipeline.

The CSV ingestion store models src/Survey.py (text-input submit) and the
shared append-or-create step of src/pages/Survey.py; the loader and the
aggregation model src/pages/Visuals.py; the JSON reference loader models
load_spots_from_json of src/pages/Survey.py and the json_payload/json_bar_df
pipeline of src/pages/Visuals.py.
-/

namespace Lab2

/-- A CSV line: one record of fields. The field encoding (quoting) is
abstracted away, since pandas round-trips fields through to_csv/read_csv. -/
abbrev Line := List String

/-- State of a backing file: `none` = missing, `some []` = zero-length. -/
abbrev FileState := Option (List Line)

/-- Python str.strip: remove leading and trailing whitespace. -/
def pyStrip (s : String) : String :=
  ⟨((s.data.dropWhile Char.isWhitespace).reverse.dropWhile Char.isWhitespace).reverse⟩

/-- The header line written by to_csv for the one-row DataFrame. -/
def header : Line := ["category", "value"]

/-- file_exists_and_not_empty of src/Survey.py and src/pages/Survey.py:
the file exists and has at least one byte. -/
def file_exists_and_not_empty (f : FileState) : Bool :=
  match f with
  | none => false
  | some ls => !ls.isEmpty

/-- Append-or-create step shared by both survey pages: if the file already has
data, append the single data row without a header; otherwise create the file
as the header followed by that one row. -/
def appendRow (row : Line) (f : FileState) : List Line :=
  if file_exists_and_not_empty f then f.getD [] ++ [row] else [header, row]

/-- The submit handler of src/Survey.py: both inputs must be non-empty after
stripping, otherwise nothing is written; on success the single stripped
record is appended (or the file is created). Returns (success?, new state). -/
def submit (category_input value_input : String) (f : FileState) : Bool × FileState :=
  if pyStrip category_input = "" ∨ pyStrip value_input = "" then (false, f)
  else (true, some (appendRow [pyStrip category_input, pyStrip value_input] f))

/-- Run a sequence of submit calls, counting the successful ones. -/
def runSubmits : List (String × String) → FileState → Nat × FileState
  | [], f => (0, f)
  | (c, v) :: rest, f =>
    ((if (submit c v f).1 then 1 else 0) + (runSubmits rest (submit c v f).2).1,
     (runSubmits rest (submit c v f).2).2)

/-- The data rows produced by the successful calls of a sequence, in order. -/
def successRows (calls : List (String × String)) : List Line :=
  calls.filterMap fun p =>
    if pyStrip p.1 = "" ∨ pyStrip p.2 = "" then none
    else some [pyStrip p.1, pyStrip p.2]

/-- A loaded table: column names and data rows. -/
structure Table where
  cols : Line
  rows : List Line
deriving DecidableEq

/-- pandas read_csv on raw lines: the first line is the header, and parsing
succeeds when every data row has exactly as many fields as the header
(ragged content is a parse error). -/
def parseCsv : List Line → Option (Line × List Line)
  | [] => none
  | h :: rows => if rows.all (fun r => r.length == h.length) then some (h, rows) else none

/-- The empty fallback table with the canonical column layout. -/
def emptyTable : Table := ⟨["category", "value"], []⟩

/-- CSV loading of src/pages/Visuals.py: a missing or zero-length file gives
the empty fallback table, a parse failure is caught and gives the same
fallback, and otherwise the parsed header and rows are returned. -/
def load (f : FileState) : Table :=
  match f with
  | none => emptyTable
  | some ls =>
    if ls.isEmpty then emptyTable
    else
      match parseCsv ls with
      | none => emptyTable
      | some hr => ⟨hr.1, hr.2⟩

/-- One rating record of the ingestion table, as loaded from the CSV. -/
structure Row where
  category : String
  value : String
deriving DecidableEq

/-- Decimal digit value of a character, when it is a digit. -/
def digitVal (c : Char) : Option Nat :=
  if c.isDigit then some (c.toNat - 48) else none

/-- Value of a non-empty all-digit character run. -/
def digitsVal (cs : List Char) : Option Nat :=
  if cs.isEmpty then none
  else cs.foldlM (fun acc c => (digitVal c).map (fun d => 10 * acc + d)) 0

/-- Value of a possibly-empty all-digit run (used for the two sides of a
decimal point, where one side may be empty). -/
def digitsValD (cs : List Char) : Nat :=
  cs.foldl (fun acc c => 10 * acc + (c.toNat - 48)) 0

/-- Unsigned part of a decimal literal: an integer part, optionally followed
by a point and a fractional part; at least one side must carry a digit. The
value ip.fp is the exact rational (ip * 10^k + fp) / 10^k. -/
def toNumericAux (cs : List Char) : Option ℚ :=
  match cs.splitOn '.' with
  | [ip] => (digitsVal ip).map (fun n => (n : ℚ))
  | [ip, fp] =>
    if ip.isEmpty && fp.isEmpty then none
    else if ip.all Char.isDigit && fp.all Char.isDigit then
      some (mkRat (digitsValD ip * 10 ^ fp.length + digitsValD fp : Nat) (10 ^ fp.length))
    else none
  | _ => none

/-- pd.to_numeric with errors="coerce" on one cell, restricted to plain
decimal literals: optional surrounding whitespace, optional sign, digits with
an optional fractional part; anything else is coerced to missing (NaN). -/
def toNumeric (s : String) : Option ℚ :=
  match (pyStrip s).data with
  | '-' :: cs => (toNumericAux cs).map Neg.neg
  | '+' :: cs => toNumericAux cs
  | cs => toNumericAux cs

/-- Rational addition computed on the numerator/denominator representation.
It agrees with the ambient addition of ℚ (see qAdd_eq) and, unlike it, is
not shielded from kernel evaluation. -/
def qAdd (a b : ℚ) : ℚ := mkRat (a.num * b.den + b.num * a.den) (a.den * b.den)

/-- Division of a rational by a natural number on the numerator/denominator
representation; agrees with the ambient division (see qDivNat_eq). -/
def qDivNat (a : ℚ) (n : Nat) : ℚ := mkRat a.num (a.den * n)

/-- Sum of a list of rationals via qAdd. -/
def qSum (l : List ℚ) : ℚ := l.foldr qAdd 0

/-- Metric kinds of the aggregator. The code of src/pages/Visuals.py computes
the sum (its "totals" chart); average and count are the other two summary
kinds named by the surrounding design. -/
inductive Metric
  | sum
  | average
  | count
deriving DecidableEq

/-- Rows entering the aggregation as (category, derived numeric value) pairs.
For sum/average this is filt_df = csv_df.dropna(subset=["numeric_value"]) of
src/pages/Visuals.py: rows whose derived value is missing are dropped.
Modelled from the spec: the count metric (absent from src) retains all rows. -/
def validRows (m : Metric) (t : List Row) : List (String × Option ℚ) :=
  match m with
  | .count => t.map (fun r => (r.category, toNumeric r.value))
  | _ => t.filterMap (fun r => (toNumeric r.value).map (fun q => (r.category, some q)))

/-- Category filter of src/pages/Visuals.py: `if picked:` applies
isin(picked); an empty selection leaves every row in. -/
def filterPicked {α : Type} (picked : List String) (l : List (String × α)) :
    List (String × α) :=
  if picked.isEmpty then l else l.filter (fun p => picked.contains p.1)

/-- Lexicographic strict order on character lists by code point: the order
python uses to compare strings and pandas uses to sort object keys. -/
def charListLt : List Char → List Char → Bool
  | [], [] => false
  | [], _ :: _ => true
  | _ :: _, [] => false
  | a :: as, b :: bs => if a < b then true else if b < a then false else charListLt as bs

/-- Strict lexicographic order on strings by code point. -/
def strLt (a b : String) : Bool := charListLt a.data b.data

/-- Insert a string into a sorted duplicate-free list, keeping it sorted and
duplicate-free. -/
def sortedInsert (c : String) : List String → List String
  | [] => [c]
  | d :: l =>
    if c = d then d :: l else if strLt c d then c :: d :: l else d :: sortedInsert c l

/-- Sorted duplicate-free list of the given strings: models python
sorted(set(..)) as well as the sorted group keys produced by pandas groupby. -/
def sortedDedupList (l : List String) : List String :=
  l.foldr sortedInsert []

/-- Per-group metric value. Sum is the code's groupby(..)["numeric_value"].sum();
average and count are modelled from the spec: the mean of the present values,
and the size of the group with missing values retained. -/
def metricOf (m : Metric) (vs : List (Option ℚ)) : ℚ :=
  match m with
  | .sum => qSum vs.reduceOption
  | .average => qDivNat (qSum vs.reduceOption) vs.reduceOption.length
  | .count => (vs.length : ℚ)

/-- groupby("category") of src/pages/Visuals.py: group keys in sorted order,
one metric value per key computed from that key's rows. -/
def groupRows (m : Metric) (l : List (String × Option ℚ)) : List (String × ℚ) :=
  (sortedDedupList (l.map Prod.fst)).map
    (fun c => (c, metricOf m ((l.filter (fun p => p.1 == c)).map Prod.snd)))

/-- Insert into a list sorted by metric descending: the element goes after
every element with a strictly larger metric and before the rest, so an
element already in the list with an equal metric stays in front only if it
was in front (stable insertion). -/
def insertByTotal (a : String × ℚ) : List (String × ℚ) → List (String × ℚ)
  | [] => [a]
  | b :: l => if b.2 ≤ a.2 then a :: b :: l else b :: insertByTotal a l

/-- sort_values("total", ascending=False) as a stable descending sort. -/
def sortDesc : List (String × ℚ) → List (String × ℚ)
  | [] => []
  | a :: l => insertByTotal a (sortDesc l)

/-- The dynamic-chart aggregation of src/pages/Visuals.py: derive numeric
values (dropping missing ones for numeric metrics), apply the category
filter, group by category, sort by the metric descending and keep the first
topK groups. -/
def aggregate (t : List Row) (picked : List String) (m : Metric) (topK : Nat) :
    List (String × ℚ) :=
  (sortDesc (groupRows m (filterPicked picked (validRows m t)))).take topK

/-- The order in which aggregate rows leave the aggregator: metric strictly
descending, with ties in ascending (code-point) category order. -/
def aggOrder (a b : String × ℚ) : Prop :=
  b.2 < a.2 ∨ (b.2 = a.2 ∧ strLt a.1 b.1 = true)

/-- JSON values. -/
inductive Json
  | null
  | bool (b : Bool)
  | num (q : ℚ)
  | str (s : String)
  | arr (elems : List Json)
  | obj (fields : List (String × Json))

/-- State of the reference document data.json: missing file, zero-length
file, unparseable content, or a parsed JSON value. -/
inductive JDoc
  | missing
  | empty
  | malformed
  | parsed (j : Json)

/-- Python truthiness of a JSON value. -/
def truthy : Json → Bool
  | .null => false
  | .bool b => b
  | .num q => q != 0
  | .str s => !s.isEmpty
  | .arr l => !l.isEmpty
  | .obj l => !l.isEmpty

/-- One step of the label comprehension of load_spots_from_json: keep
p.get("label") exactly when p is a dict whose label is present and truthy. -/
def labelOf (p : Json) : Option Json :=
  match p with
  | .obj kvs =>
    match List.lookup "label" kvs with
    | some v => if truthy v then some v else none
    | none => none
  | _ => none

/-- Body of the try block of load_spots_from_json on a parsed payload: `none`
models an exception escaping to the except handler. A payload that is not a
dict raises on .get; a data_points value that is not a sequence either raises
on iteration or yields no dict entries, and both roads end in the fallback. -/
def tryLabels (payload : Json) : Option (List Json) :=
  match payload with
  | .obj kvs =>
    match List.lookup "data_points" kvs with
    | some (.arr pts) => some (pts.filterMap labelOf)
    | some _ => none
    | none => some []
  | _ => none

/-- The hard-coded fallback list of study spot labels. -/
def fallbackSpots : List Json :=
  [.str "Library", .str "Dorm", .str "Clough Commons", .str "Student Center",
   .str "Klaus Atrium", .str "Outdoor Greens", .str "Dining Hall"]

/-- load_spots_from_json of src/pages/Survey.py: on a missing, zero-length or
unparseable file, and whenever the extracted label list is empty or the try
block raises, the fallback list; otherwise the extracted labels. -/
def load_spots_from_json (d : JDoc) : List Json :=
  match d with
  | .parsed j =>
    match tryLabels j with
    | some labels => if labels.isEmpty then fallbackSpots else labels
    | none => fallbackSpots
  | _ => fallbackSpots

/-- The submit handler of src/pages/Survey.py: append the chosen spot and the
slider rating (written as its decimal numeral) through the shared
append-or-create step; widget-supplied input needs no validation. -/
def submitSpot (spot : String) (rating : Nat) (f : FileState) : FileState :=
  some (appendRow [spot, Nat.repr rating] f)

/-- The fallback payload substituted by src/pages/Visuals.py when data.json
is missing, zero-length or unparseable. -/
def defaultPayload : Json :=
  .obj [("chart_title", .str "JSON Chart"), ("data_points", .arr [])]

/-- json_payload of src/pages/Visuals.py. -/
def json_payload (d : JDoc) : Json :=
  match d with
  | .parsed j => j
  | _ => defaultPayload

/-- json_payload.get("data_points", []) of src/pages/Visuals.py, which runs
outside the try block: `none` marks behaviour outside the embedded fragment
(.get on a non-object payload raises AttributeError; a data_points value
that is not a sequence of records is not modelled). -/
def json_points (d : JDoc) : Option (List Json) :=
  match json_payload d with
  | .obj kvs =>
    match List.lookup "data_points" kvs with
    | some (.arr pts) => some pts
    | some _ => none
    | none => some []
  | _ => none

/-- Columns of pd.DataFrame over a list of records: the union of the keys in
order of first appearance; `none` when an entry is not a record (behaviour
outside the embedded fragment). -/
def dfColumns (pts : List Json) : Option (List String) :=
  pts.foldlM
    (fun acc p =>
      match p with
      | .obj kvs =>
        some (kvs.foldl (fun a kv => if a.contains kv.1 then a else a ++ [kv.1]) acc)
      | _ => none)
    []

/-- Cell of a record under a column key; an absent key is a missing (NaN)
cell. -/
def cellOf (p : Json) (k : String) : Option Json :=
  match p with
  | .obj kvs => List.lookup k kvs
  | _ => none

/-- json_bar_df of src/pages/Visuals.py: the data_points records as
(label cell, value cell) rows when the frame is non-empty and its column set
contains both label and value, and the empty frame otherwise. The check is on
the column set of the whole frame: no per-entry filtering happens, and an
entry missing one of the keys keeps a missing cell. `none` is behaviour
outside the embedded fragment. -/
def json_bar_df (d : JDoc) : Option (List (Option Json × Option Json)) :=
  match json_points d with
  | none => none
  | some pts =>
    match dfColumns pts with
    | none => none
    | some cols =>
      if !pts.isEmpty && cols.contains "label" && cols.contains "value" then
        some (pts.map (fun p => (cellOf p "label", cellOf p "value")))
      else some []

/-- Favorites update of src/pages/Visuals.py:
st.session_state["favorites"] = sorted(list({*favorites, *picked})). -/
def favUpdate (favorites picked : List String) : List String :=
  sortedDedupList (favorites ++ picked)

/-- A parsed reference document whose second data point has a label but no
value key. -/
def halfRecordDoc : JDoc :=
  .parsed (.obj [("data_points",
    .arr [.obj [("label", .str "a"), ("value", .num 1)],
          .obj [("label", .str "b")]])])

/-! Sanity lemmas: the numerator/denominator arithmetic used by the
aggregator agrees with the ambient field operations of ℚ. -/

theorem qAdd_eq (a b : ℚ) : qAdd a b = a + b := by
  have ha : (a.den : ℚ) ≠ 0 := Nat.cast_ne_zero.mpr a.den_nz
  have hb : (b.den : ℚ) ≠ 0 := Nat.cast_ne_zero.mpr b.den_nz
  rw [qAdd, Rat.mkRat_eq_div]
  conv_rhs => rw [← Rat.num_div_den a, ← Rat.num_div_den b]
  push_cast
  field_simp

theorem qDivNat_eq (a : ℚ) (n : Nat) : qDivNat a n = a / n := by
  have ha : (a.den : ℚ) ≠ 0 := Nat.cast_ne_zero.mpr a.den_nz
  rw [qDivNat, Rat.mkRat_eq_div]
  rcases Nat.eq_zero_or_pos n with h | h
  · subst h; push_cast; simp
  · have hn : (n : ℚ) ≠ 0 := Nat.cast_ne_zero.mpr h.ne'
    conv_rhs => rw [← Rat.num_div_den a]
    push_cast
    field_simp

theorem qSum_eq (l : List ℚ) : qSum l = l.sum := by
  induction l with
  | nil => rfl
  | cons a l ih => rw [qSum, List.foldr_cons, qAdd_eq, List.sum_cons, ← ih]; rfl

/-! Order lemmas for the code-point lexicographic order on strings. -/

theorem charListLt_irrefl : ∀ l : List Char, charListLt l l = false
  | [] => rfl
  | a :: as => by
    rw [charListLt, if_neg (lt_irrefl a), if_neg (lt_irrefl a)]
    exact charListLt_irrefl as

theorem charListLt_trans (l₁ l₂ l₃ : List Char)
    (h₁ : charListLt l₁ l₂ = true) (h₂ : charListLt l₂ l₃ = true) :
    charListLt l₁ l₃ = true := by
  induction l₁ generalizing l₂ l₃ with
  | nil =>
    cases l₂ with
    | nil => simp [charListLt] at h₁
    | cons b bs =>
      cases l₃ with
      | nil => simp [charListLt] at h₂
      | cons c cs => simp [charListLt]
  | cons a as ih =>
    cases l₂ with
    | nil => simp [charListLt] at h₁
    | cons b bs =>
      cases l₃ with
      | nil => simp [charListLt] at h₂
      | cons c cs =>
        rw [charListLt] at h₁ h₂ ⊢
        by_cases hab : a < b
        · by_cases hbc : b < c
          · rw [if_pos (lt_trans hab hbc)]
          · by_cases hcb : c < b
            · rw [if_neg hbc, if_pos hcb] at h₂; exact absurd h₂ (by simp)
            · have hbc' : b = c := le_antisymm (not_lt.mp hcb) (not_lt.mp hbc)
              subst hbc'
              rw [if_pos hab]
        · by_cases hba : b < a
          · rw [if_neg hab, if_pos hba] at h₁; exact absurd h₁ (by simp)
          · have hab' : a = b := le_antisymm (not_lt.mp hba) (not_lt.mp hab)
            subst hab'
            rw [if_neg hab, if_neg hba] at h₁
            by_cases hac : a < c
            · rw [if_pos hac]
            · by_cases hca : c < a
              · rw [if_neg hac, if_pos hca] at h₂; exact absurd h₂ (by simp)
              · rw [if_neg hac, if_neg hca] at h₂ ⊢
                exact ih bs cs h₁ h₂

theorem charListLt_antisymm (l₁ l₂ : List Char)
    (h₁ : charListLt l₁ l₂ = false) (h₂ : charListLt l₂ l₁ = false) : l₁ = l₂ := by
  induction l₁ generalizing l₂ with
  | nil =>
    cases l₂ with
    | nil => rfl
    | cons b bs => simp [charListLt] at h₁
  | cons a as ih =>
    cases l₂ with
    | nil => simp [charListLt] at h₂
    | cons b bs =>
      rw [charListLt] at h₁ h₂
      by_cases hab : a < b
      · rw [if_pos hab] at h₁; exact absurd h₁ (by simp)
      · by_cases hba : b < a
        · rw [if_pos hba] at h₂; exact absurd h₂ (by simp)
        · have hab' : a = b := le_antisymm (not_lt.mp hba) (not_lt.mp hab)
          subst hab'
          rw [if_neg hab, if_neg hab] at h₁ h₂
          rw [ih bs h₁ h₂]

theorem strLt_irrefl (s : String) : strLt s s = false :=
  charListLt_irrefl s.data

theorem strLt_trans {a b c : String} (h₁ : strLt a b = true) (h₂ : strLt b c = true) :
    strLt a c = true :=
  charListLt_trans a.data b.data c.data h₁ h₂

theorem strLt_antisymm {a b : String} (h₁ : strLt a b = false) (h₂ : strLt b a = false) :
    a = b := by
  cases a with
  | mk la =>
    cases b with
    | mk lb => exact congrArg String.mk (charListLt_antisymm la lb h₁ h₂)

theorem strLt_of_not (c d : String) (hne : ¬c = d) (h : ¬strLt c d = true) :
    strLt d c = true := by
  cases hdc : strLt d c with
  | false => exact absurd (strLt_antisymm (Bool.not_eq_true _ ▸ Bool.of_not_eq_true h) hdc) hne
  | true => rfl

/-! Lemmas about sorted duplicate-free insertion. -/

theorem mem_sortedInsert (c x : String) (l : List String) :
    x ∈ sortedInsert c l ↔ x = c ∨ x ∈ l := by
  induction l with
  | nil => simp [sortedInsert]
  | cons d l ih =>
    by_cases hcd : c = d
    · subst hcd
      rw [sortedInsert, if_pos rfl]
      simp only [List.mem_cons]
      tauto
    · rw [sortedInsert, if_neg hcd]
      by_cases hlt : strLt c d = true
      · rw [if_pos hlt]; simp only [List.mem_cons]
      · rw [if_neg hlt]; simp only [List.mem_cons, ih]; tauto

theorem pairwise_sortedInsert (c : String) (l : List String)
    (h : l.Pairwise (fun a b => strLt a b = true)) :
    (sortedInsert c l).Pairwise (fun a b => strLt a b = true) := by
  induction l with
  | nil => simp [sortedInsert]
  | cons d l ih =>
    rw [List.pairwise_cons] at h
    obtain ⟨hd, hl⟩ := h
    by_cases hcd : c = d
    · subst hcd
      rw [sortedInsert, if_pos rfl]
      exact List.Pairwise.cons hd hl
    · rw [sortedInsert, if_neg hcd]
      by_cases hlt : strLt c d = true
      · rw [if_pos hlt]
        refine List.Pairwise.cons ?_ (List.Pairwise.cons hd hl)
        intro x hx
        rcases List.mem_cons.mp hx with rfl | hx
        · exact hlt
        · exact strLt_trans hlt (hd x hx)
      · rw [if_neg hlt]
        have hdc : strLt d c = true := strLt_of_not c d hcd hlt
        refine List.Pairwise.cons ?_ (ih hl)
        intro x hx
        rcases (mem_sortedInsert c x l).mp hx with rfl | hx
        · exact hdc
        · exact hd x hx

theorem pairwise_sortedDedupList (l : List String) :
    (sortedDedupList l).Pairwise (fun a b => strLt a b = true) := by
  induction l with
  | nil => exact List.Pairwise.nil
  | cons a l ih => exact pairwise_sortedInsert a _ ih

theorem mem_sortedDedupList (x : String) (l : List String) :
    x ∈ sortedDedupList l ↔ x ∈ l := by
  induction l with
  | nil => simp [sortedDedupList]
  | cons a l ih =>
    show x ∈ sortedInsert a (sortedDedupList l) ↔ _
    rw [mem_sortedInsert]
    simp only [List.mem_cons, ih]

theorem nodup_sortedDedupList (l : List String) : (sortedDedupList l).Nodup :=
  (pairwise_sortedDedupList l).imp fun hab heq =>
    absurd (heq ▸ hab) (by simp [strLt_irrefl])

/-! Lemmas about the stable descending sort of aggregate rows. -/

theorem aggOrder_snd_le {a b : String × ℚ} (h : aggOrder a b) : b.2 ≤ a.2 := by
  rcases h with h | ⟨h, _⟩
  · exact le_of_lt h
  · exact le_of_eq h

theorem mem_insertByTotal (a x : String × ℚ) (l : List (String × ℚ)) :
    x ∈ insertByTotal a l ↔ x = a ∨ x ∈ l := by
  induction l with
  | nil => simp [insertByTotal]
  | cons b l ih =>
    rw [insertByTotal]
    by_cases h : b.2 ≤ a.2
    · rw [if_pos h]; simp only [List.mem_cons]
    · rw [if_neg h]; simp only [List.mem_cons, ih]; tauto

theorem mem_sortDesc (x : String × ℚ) (l : List (String × ℚ)) :
    x ∈ sortDesc l ↔ x ∈ l := by
  induction l with
  | nil => simp [sortDesc]
  | cons a l ih =>
    show x ∈ insertByTotal a (sortDesc l) ↔ _
    rw [mem_insertByTotal]
    simp only [List.mem_cons, ih]

theorem pairwise_insertByTotal (x : String × ℚ) (l : List (String × ℚ))
    (hp : l.Pairwise aggOrder) (hfst : ∀ y ∈ l, strLt x.1 y.1 = true) :
    (insertByTotal x l).Pairwise aggOrder := by
  induction l with
  | nil => simp [insertByTotal, List.Pairwise.nil]
  | cons b l ih =>
    rw [List.pairwise_cons] at hp
    obtain ⟨hb, hl⟩ := hp
    rw [insertByTotal]
    by_cases h : b.2 ≤ x.2
    · rw [if_pos h]
      refine List.Pairwise.cons ?_ (List.Pairwise.cons hb hl)
      intro z hz
      have hzle : z.2 ≤ x.2 := by
        rcases List.mem_cons.mp hz with rfl | hz
        · exact h
        · exact le_trans (aggOrder_snd_le (hb z hz)) h
      by_cases hlt : z.2 < x.2
      · exact Or.inl hlt
      · exact Or.inr ⟨le_antisymm hzle (not_lt.mp hlt), hfst z hz⟩
    · rw [if_neg h]
      refine List.Pairwise.cons ?_ (ih hl (fun y hy => hfst y (List.mem_cons_of_mem b hy)))
      intro w hw
      rcases (mem_insertByTotal x w l).mp hw with rfl | hw
      · exact Or.inl (not_le.mp h)
      · exact hb w hw

theorem pairwise_sortDesc (l : List (String × ℚ))
    (h : l.Pairwise (fun a b => strLt a.1 b.1 = true)) :
    (sortDesc l).Pairwise aggOrder := by
  induction l with
  | nil => exact List.Pairwise.nil
  | cons x l ih =>
    rw [List.pairwise_cons] at h
    obtain ⟨hx, hl⟩ := h
    show (insertByTotal x (sortDesc l)).Pairwise aggOrder
    exact pairwise_insertByTotal x (sortDesc l) (ih hl)
      (fun y hy => hx y ((mem_sortDesc y l).mp hy))

theorem pairwise_fst_groupRows (m : Metric) (l : List (String × Option ℚ)) :
    (groupRows m l).Pairwise (fun a b => strLt a.1 b.1 = true) := by
  rw [groupRows, List.pairwise_map]
  exact pairwise_sortedDedupList (l.map Prod.fst)

theorem pairwise_aggregate (t : List Row) (picked : List String) (m : Metric) (topK : Nat) :
    (aggregate t picked m topK).Pairwise aggOrder :=
  List.Pairwise.sublist (List.take_sublist topK _)
    (pairwise_sortDesc _ (pairwise_fst_groupRows m _))

theorem length_aggregate_le (t : List Row) (picked : List String) (m : Metric) (topK : Nat) :
    (aggregate t picked m topK).length ≤ topK := by
  rw [aggregate, List.length_take]
  exact min_le_left _ _

/-! Lemmas about runs of submit calls over the backing file. -/

theorem submit_fail {c v : String} (f : FileState)
    (hv : pyStrip c = "" ∨ pyStrip v = "") : submit c v f = (false, f) := by
  rw [submit, if_pos hv]

theorem submit_ok {c v : String} (f : FileState)
    (hv : ¬(pyStrip c = "" ∨ pyStrip v = "")) :
    submit c v f = (true, some (appendRow [pyStrip c, pyStrip v] f)) := by
  rw [submit, if_neg hv]

theorem appendRow_nonempty (row : Line) (l : List Line) (hl : l ≠ []) :
    appendRow row (some l) = l ++ [row] := by
  rw [appendRow, if_pos]
  · rfl
  · rw [file_exists_and_not_empty]
    simp [List.isEmpty_iff, hl]

theorem appendRow_fresh (row : Line) (f₀ : FileState) (h₀ : f₀ = none ∨ f₀ = some []) :
    appendRow row f₀ = [header, row] := by
  rcases h₀ with rfl | rfl <;> rfl

theorem successRows_cons (c v : String) (rest : List (String × String)) :
    successRows ((c, v) :: rest) =
      if pyStrip c = "" ∨ pyStrip v = "" then successRows rest
      else [pyStrip c, pyStrip v] :: successRows rest := by
  rw [successRows, List.filterMap_cons, successRows]
  by_cases hv : pyStrip c = "" ∨ pyStrip v = ""
  · rw [if_pos hv, if_pos hv]
  · rw [if_neg hv, if_neg hv]

theorem runSubmits_nonempty (calls : List (String × String)) (l : List Line) (hl : l ≠ []) :
    runSubmits calls (some l) =
      ((successRows calls).length, some (l ++ successRows calls)) := by
  induction calls generalizing l with
  | nil => simp [runSubmits, successRows]
  | cons p rest ih =>
    obtain ⟨c, v⟩ := p
    rw [runSubmits, successRows_cons]
    by_cases hv : pyStrip c = "" ∨ pyStrip v = ""
    · rw [submit_fail _ hv, if_pos hv, ih l hl]
      simp
    · rw [submit_ok _ hv, if_neg hv, appendRow_nonempty _ _ hl,
        ih (l ++ [[pyStrip c, pyStrip v]]) (by simp)]
      simp [List.append_assoc, Nat.add_comm]

theorem runSubmits_fresh (calls : List (String × String)) (f₀ : FileState)
    (h₀ : f₀ = none ∨ f₀ = some []) :
    runSubmits calls f₀ =
      ((successRows calls).length,
       if (successRows calls).isEmpty then f₀
       else some (header :: successRows calls)) := by
  induction calls with
  | nil => simp [runSubmits, successRows]
  | cons p rest ih =>
    obtain ⟨c, v⟩ := p
    rw [runSubmits, successRows_cons]
    by_cases hv : pyStrip c = "" ∨ pyStrip v = ""
    · rw [submit_fail _ hv, if_pos hv, ih]
      simp
    · rw [submit_ok _ hv, if_neg hv, appendRow_fresh _ _ h₀,
        runSubmits_nonempty rest [header, [pyStrip c, pyStrip v]] (by simp)]
      simp [Nat.add_comm]

theorem successRows_length_two (calls : List (String × String)) :
    ∀ r ∈ successRows calls, r.length = 2 := by
  intro r hr
  rw [successRows, List.mem_filterMap] at hr
  obtain ⟨p, _, hp⟩ := hr
  by_cases hv : pyStrip p.1 = "" ∨ pyStrip p.2 = ""
  · rw [if_pos hv] at hp; simp at hp
  · rw [if_neg hv] at hp
    cases hp
    rfl

theorem load_header_rows (rows : List Line) (h : ∀ r ∈ rows, r.length = 2) :
    load (some (header :: rows)) = ⟨header, rows⟩ := by
  have hall : rows.all (fun r => r.length == header.length) = true := by
    rw [List.all_eq_true]
    intro r hr
    have := h r hr
    simp [header, this]
  simp [load, parseCsv, hall]

theorem load_fresh (f₀ : FileState) (h₀ : f₀ = none ∨ f₀ = some []) :
    load f₀ = emptyTable := by
  rcases h₀ with rfl | rfl <;> rfl

theorem load_after_run (calls : List (String × String)) (f₀ : FileState)
    (h₀ : f₀ = none ∨ f₀ = some []) :
    load (runSubmits calls f₀).2 = ⟨["category", "value"], successRows calls⟩ := by
  rw [runSubmits_fresh calls f₀ h₀]
  by_cases he : (successRows calls).isEmpty
  · rw [if_pos he, load_fresh f₀ h₀, emptyTable]
    rw [List.isEmpty_iff] at he
    rw [he]
  · rw [if_neg he, load_header_rows _ (successRows_length_two calls)]
    rfl

/-! Claim theorems. -/

/-- C1: starting from a missing or empty backing file, after any sequence of
submit calls load() returns the table whose rows are exactly the successful
submissions' stripped records in call order under the canonical column
layout, the success count equals the row count, and one further successful
submit increases the row count seen by load() by exactly one. -/
theorem submit_append_monotonic (calls : List (String × String)) (f₀ : FileState)
    (h₀ : f₀ = none ∨ f₀ = some []) :
    load (runSubmits calls f₀).2 = ⟨["category", "value"], successRows calls⟩ ∧
    (runSubmits calls f₀).1 = (successRows calls).length ∧
    (∀ c v, ¬(pyStrip c = "" ∨ pyStrip v = "") →
      (load (runSubmits (calls ++ [(c, v)]) f₀).2).rows.length =
        (load (runSubmits calls f₀).2).rows.length + 1) := by
  refine ⟨load_after_run calls f₀ h₀, ?_, ?_⟩
  · rw [runSubmits_fresh calls f₀ h₀]
  · intro c v hv
    rw [load_after_run _ f₀ h₀, load_after_run calls f₀ h₀]
    show (successRows (calls ++ [(c, v)])).length = (successRows calls).length + 1
    have happ : successRows (calls ++ [(c, v)]) = successRows calls ++ successRows [(c, v)] :=
      List.filterMap_append _ _ _
    have hone : successRows [(c, v)] = [[pyStrip c, pyStrip v]] := by
      rw [successRows_cons, if_neg hv]
      rfl
    rw [happ, hone, List.length_append]
    rfl

theorem submit_append_monotonic_witness :
    load (runSubmits [("a", "1"), (" ", "2")] none).2 =
      ⟨["category", "value"], [["a", "1"]]⟩ ∧
    (load (runSubmits ([("a", "1"), (" ", "2")] ++ [("b", "3")]) none).2).rows.length =
      (load (runSubmits [("a", "1"), (" ", "2")] none).2).rows.length + 1 := by
  have h := submit_append_monotonic [("a", "1"), (" ", "2")] none (Or.inl rfl)
  exact ⟨by rw [h.1]; decide, h.2.2 "b" "3" (by decide)⟩

/-- C2: the header is emitted exactly once: appending to a non-empty file
adds the single data row without a header, creating a missing or zero-length
file writes the header followed by that row as the sole write, and after any
run from a fresh file the store is either still fresh (no successful call) or
exactly the single header line followed by the data rows. -/
theorem header_written_once (row : Line) (l : List Line) (calls : List (String × String))
    (f₀ : FileState) :
    (l ≠ [] → appendRow row (some l) = l ++ [row]) ∧
    appendRow row none = [header, row] ∧
    appendRow row (some []) = [header, row] ∧
    ((f₀ = none ∨ f₀ = some []) →
      (runSubmits calls f₀).2 =
        if (successRows calls).isEmpty then f₀
        else some (header :: successRows calls)) := by
  refine ⟨fun hl => appendRow_nonempty row l hl, rfl, rfl, fun h₀ => ?_⟩
  rw [runSubmits_fresh calls f₀ h₀]

theorem header_written_once_witness :
    appendRow ["a", "1"] (some [header]) = [header, ["a", "1"]] ∧
    (runSubmits [("a", "1"), ("b", "2")] none).2 =
      some [header, ["a", "1"], ["b", "2"]] := by
  have h := header_written_once ["a", "1"] [header] [("a", "1"), ("b", "2")] none
  refine ⟨h.1 (by decide), ?_⟩
  rw [h.2.2.2 (Or.inl rfl)]
  decide

/-- C3: submit with a category or value that is empty after stripping
whitespace fails and performs no write, leaving load() unchanged; otherwise
it writes exactly the single stripped record. -/
theorem validation_blocks_write :
    (∀ c v f, (pyStrip c = "" ∨ pyStrip v = "") →
      submit c v f = (false, f) ∧ load (submit c v f).2 = load f) ∧
    (∀ c v f, ¬(pyStrip c = "" ∨ pyStrip v = "") →
      submit c v f = (true, some (appendRow [pyStrip c, pyStrip v] f))) := by
  refine ⟨fun c v f hv => ?_, fun c v f hv => submit_ok f hv⟩
  rw [submit_fail f hv]
  exact ⟨rfl, rfl⟩

theorem validation_blocks_write_witness :
    submit "" "x" (some [header, ["a", "1"]]) = (false, some [header, ["a", "1"]]) ∧
    submit "x" "" none = (false, none) ∧
    submit "  " "  " none = (false, none) ∧
    submit " x " " 1 " none = (true, some [header, ["x", "1"]]) := by
  refine ⟨(validation_blocks_write.1 "" "x" _ (by decide)).1,
    (validation_blocks_write.1 "x" "" none (by decide)).1,
    (validation_blocks_write.1 "  " "  " none (by decide)).1, ?_⟩
  rw [validation_blocks_write.2 " x " " 1 " none (by decide)]
  decide

/-- C4: load() never fails: a missing file, a zero-length file and an
unparseable file all give the empty table with the canonical
(category, value) layout, and otherwise the full ordered table is returned
in file order. -/
theorem load_fail_soft :
    load none = ⟨["category", "value"], []⟩ ∧
    load (some []) = ⟨["category", "value"], []⟩ ∧
    (∀ ls, parseCsv ls = none → load (some ls) = ⟨["category", "value"], []⟩) ∧
    (∀ h rows, parseCsv (h :: rows) = some (h, rows) →
      load (some (h :: rows)) = ⟨h, rows⟩) := by
  refine ⟨rfl, rfl, fun ls hp => ?_, fun h rows hp => ?_⟩
  · cases ls with
    | nil => rfl
    | cons a ls' => simp [load, hp, emptyTable]
  · simp [load, hp]

theorem load_fail_soft_witness :
    load (some [["a"], ["b", "c"]]) = ⟨["category", "value"], []⟩ ∧
    load (some [["category", "value"], ["x", "1"]]) =
      ⟨["category", "value"], [["x", "1"]]⟩ :=
  ⟨load_fail_soft.2.2.1 [["a"], ["b", "c"]] (by decide),
   load_fail_soft.2.2.2 ["category", "value"] [["x", "1"]] (by decide)⟩

/-- C5 counterexample: with rows [("B","5"),("A","5")] — B encountered first,
both sums equal — the aggregate orders A before B, because groupby emits its
keys in sorted category order; ties are therefore not broken by
first-encountered category as the claim states. -/
theorem aggregate_tie_break_counterexample :
    aggregate [⟨"B", "5"⟩, ⟨"A", "5"⟩] [] .sum 2 = [("A", 5), ("B", 5)] ∧
    aggregate [⟨"B", "5"⟩, ⟨"A", "5"⟩] [] .sum 2 ≠ [("B", 5), ("A", 5)] :=
  ⟨by decide, by decide⟩

/-- C5 (amended): the aggregate output is ordered by metric value descending
with ties broken by category label in ascending code-point order (the groups
enter the stable descending sort in sorted category order), the output is
truncated to the first topK rows so its length is at most topK, and the spec
example aggregate [("A",10),("B",30),("C",20)] with sum and topK 2 returns
[("B",30),("C",20)]. -/
theorem aggregate_topk_ordering :
    aggregate [⟨"A", "10"⟩, ⟨"B", "30"⟩, ⟨"C", "20"⟩] [] .sum 2 = [("B", 30), ("C", 20)] ∧
    (∀ t picked m topK, (aggregate t picked m topK).length ≤ topK) ∧
    (∀ t picked m topK, (aggregate t picked m topK).Pairwise aggOrder) :=
  ⟨by decide, length_aggregate_le, pairwise_aggregate⟩

/-! Helper lemmas for the metric and filter claims. -/

theorem validRows_average_eq_sum (t : List Row) :
    validRows .average t = validRows .sum t := rfl

theorem validRows_sum_filter (t : List Row) :
    validRows .sum (t.filter (fun r => (toNumeric r.value).isSome)) = validRows .sum t := by
  induction t with
  | nil => rfl
  | cons r t ih =>
    rw [List.filter_cons]
    cases h : toNumeric r.value with
    | none =>
      rw [if_neg (by simp [h])]
      rw [ih]
      show validRows .sum t = validRows .sum (r :: t)
      simp [validRows, List.filterMap_cons, h]
    | some q =>
      rw [if_pos (by simp [h])]
      show validRows .sum (r :: t.filter _) = validRows .sum (r :: t)
      simp only [validRows, List.filterMap_cons, h, Option.map_some]
      rw [show List.filterMap _ (List.filter _ t) =
        validRows .sum (t.filter (fun r => (toNumeric r.value).isSome)) from rfl, ih]
      rfl

theorem validRows_count_length (t : List Row) :
    (validRows .count t).length = t.length := by
  simp [validRows]

theorem validRows_fst_mem (m : Metric) (t : List Row) (p : String × Option ℚ)
    (hp : p ∈ validRows m t) : p.1 ∈ t.map Row.category := by
  cases m with
  | count =>
    rw [validRows] at hp
    rw [List.mem_map] at hp
    obtain ⟨r, hr, rfl⟩ := hp
    exact List.mem_map.mpr ⟨r, hr, rfl⟩
  | sum =>
    have hp' : p ∈ t.filterMap
        (fun r => (toNumeric r.value).map (fun q => (r.category, some q))) := hp
    rw [List.mem_filterMap] at hp'
    obtain ⟨r, hr, heq⟩ := hp'
    cases h : toNumeric r.value with
    | none => rw [h] at heq; simp at heq
    | some q =>
      rw [h] at heq
      cases heq
      exact List.mem_map.mpr ⟨r, hr, rfl⟩
  | average =>
    have hp' : p ∈ t.filterMap
        (fun r => (toNumeric r.value).map (fun q => (r.category, some q))) := hp
    rw [List.mem_filterMap] at hp'
    obtain ⟨r, hr, heq⟩ := hp'
    cases h : toNumeric r.value with
    | none => rw [h] at heq; simp at heq
    | some q =>
      rw [h] at heq
      cases heq
      exact List.mem_map.mpr ⟨r, hr, rfl⟩

theorem aggregate_unknown_category (t : List Row) (c : String) (m : Metric) (topK : Nat)
    (hc : c ∉ t.map Row.category) : aggregate t [c] m topK = [] := by
  have hfil : filterPicked [c] (validRows m t) = [] := by
    rw [filterPicked, if_neg (by simp)]
    rw [List.filter_eq_nil_iff]
    intro p hp hcon
    have hpc : p.1 = c := by simpa using hcon
    exact hc (hpc ▸ validRows_fst_mem m t p hp)
  rw [aggregate, hfil]
  show List.take topK (sortDesc (groupRows m [])) = []
  rw [show groupRows m [] = [] from rfl, show sortDesc [] = [] from rfl]
  exact List.take_nil

/-- C6: sum and average aggregate only rows whose derived numeric value is
present — dropping the missing rows before grouping changes nothing — while
count retains every row; on the spec example, sum gives A=5, B=3 and count
gives A=2, B=1. -/
theorem missing_value_handling :
    aggregate [⟨"A", "5"⟩, ⟨"A", "n/a"⟩, ⟨"B", "3"⟩] [] .sum 10 = [("A", 5), ("B", 3)] ∧
    aggregate [⟨"A", "5"⟩, ⟨"A", "n/a"⟩, ⟨"B", "3"⟩] [] .count 10 = [("A", 2), ("B", 1)] ∧
    (∀ t picked topK,
      aggregate t picked .sum topK =
        aggregate (t.filter (fun r => (toNumeric r.value).isSome)) picked .sum topK) ∧
    (∀ t picked topK,
      aggregate t picked .average topK =
        aggregate (t.filter (fun r => (toNumeric r.value).isSome)) picked .average topK) ∧
    (∀ t, (validRows .count t).length = t.length) := by
  refine ⟨by decide, by decide, fun t p k => ?_, fun t p k => ?_, validRows_count_length⟩
  · rw [aggregate, aggregate, validRows_sum_filter]
  · rw [aggregate, aggregate, validRows_average_eq_sum, validRows_average_eq_sum,
      validRows_sum_filter]

/-- C7: an empty category selection filters nothing, a non-empty selection
keeps exactly the rows whose category lies in it, and aggregating with a
selection holding only a category absent from the table yields an empty
result. -/
theorem category_filter_semantics :
    (∀ (α : Type) (l : List (String × α)), filterPicked [] l = l) ∧
    (∀ (α : Type) (c : String) (cs : List String) (l : List (String × α)),
      filterPicked (c :: cs) l = l.filter (fun p => (c :: cs).contains p.1)) ∧
    (∀ t c m topK, c ∉ t.map Row.category → aggregate t [c] m topK = []) :=
  ⟨fun _ _ => rfl, fun _ _ _ _ => rfl,
   fun t c m k hc => aggregate_unknown_category t c m k hc⟩

theorem category_filter_semantics_witness :
    aggregate [⟨"A", "1"⟩] ["Z"] .sum 3 = [] :=
  category_filter_semantics.2.2 [⟨"A", "1"⟩] "Z" .sum 3 (by decide)

/-- C8 counterexample: on a parsed document whose second data point lacks the
value key, json_bar_df keeps both entries — the second with a missing value
cell — whereas the claimed per-entry filtering would keep only the first. -/
theorem reference_load_no_entry_filter :
    json_bar_df halfRecordDoc =
      some [(some (.str "a"), some (.num 1)), (some (.str "b"), none)] ∧
    json_bar_df halfRecordDoc ≠ some [(some (.str "a"), some (.num 1))] := by
  have h1 : json_bar_df halfRecordDoc =
      some [(some (.str "a"), some (.num 1)), (some (.str "b"), none)] := rfl
  refine ⟨h1, ?_⟩
  rw [h1]
  simp

/-- C8 (amended): the survey-option loader never raises: a missing,
zero-length or unparseable document gives the hard-coded fallback label
list; on a parsed document with a data_points array it keeps exactly the
truthy labels of the record-shaped entries, filtering out entries that are
not record-shaped or lack a label, and falls back when nothing survives.
The Visuals variant substitutes the default payload — hence an empty frame —
for a missing, zero-length or unparseable document, but it performs no
per-entry filtering of the extracted data_points. -/
theorem reference_load_fail_soft :
    load_spots_from_json .missing = fallbackSpots ∧
    load_spots_from_json .empty = fallbackSpots ∧
    load_spots_from_json .malformed = fallbackSpots ∧
    (∀ kvs pts, List.lookup "data_points" kvs = some (.arr pts) →
      load_spots_from_json (.parsed (.obj kvs)) =
        if (pts.filterMap labelOf).isEmpty then fallbackSpots
        else pts.filterMap labelOf) ∧
    (∀ s, labelOf (.str s) = none) ∧
    (∀ q, labelOf (.num q) = none) ∧
    (∀ l, labelOf (.arr l) = none) ∧
    labelOf .null = none ∧
    (∀ kvs, List.lookup "label" kvs = none → labelOf (.obj kvs) = none) ∧
    json_bar_df .missing = some [] ∧
    json_bar_df .empty = some [] ∧
    json_bar_df .malformed = some [] := by
  refine ⟨rfl, rfl, rfl, fun kvs pts hl => ?_, fun s => rfl, fun q => rfl,
    fun l => rfl, rfl, fun kvs hl => ?_, rfl, rfl, rfl⟩
  · simp only [load_spots_from_json, tryLabels, hl]
  · simp only [labelOf, hl]

theorem reference_load_fail_soft_witness :
    load_spots_from_json (.parsed (.obj [("data_points",
      .arr [.obj [("label", .str "a")], .num 3])])) = [.str "a"] ∧
    labelOf (.obj [("x", .num 1)]) = none := by
  have h4 := reference_load_fail_soft.2.2.2.1
    [("data_points", Json.arr [.obj [("label", .str "a")], .num 3])]
    [.obj [("label", .str "a")], .num 3] rfl
  have h9 := reference_load_fail_soft.2.2.2.2.2.2.2.2.1 [("x", Json.num 1)] rfl
  refine ⟨?_, h9⟩
  rw [h4]
  rfl

/-- C9: the survey-option submit can only append well-formed rating rows:
the spot option list is never empty (an empty extraction falls back to the
hard-coded labels), a spot chosen from that list is written verbatim as the
category together with the slider rating as its decimal numeral, and for
any rating between 1 and 10 the derived numeric value of the written row is
present, never missing. -/
theorem spot_rows_always_numeric :
    (∀ d, load_spots_from_json d ≠ []) ∧
    (∀ (d : JDoc) (spot : String) (rating : Nat) (f : FileState),
      Json.str spot ∈ load_spots_from_json d → 1 ≤ rating → rating ≤ 10 →
      submitSpot spot rating f = some (appendRow [spot, Nat.repr rating] f) ∧
      toNumeric (Nat.repr rating) = some (rating : ℚ)) := by
  constructor
  · intro d
    cases d with
    | missing => simp [load_spots_from_json, fallbackSpots]
    | empty => simp [load_spots_from_json, fallbackSpots]
    | malformed => simp [load_spots_from_json, fallbackSpots]
    | parsed j =>
      cases h : tryLabels j with
      | none => simp [load_spots_from_json, h, fallbackSpots]
      | some labels =>
        by_cases he : labels.isEmpty
        · simp [load_spots_from_json, h, he, fallbackSpots]
        · simp only [load_spots_from_json, h, if_neg he]
          rw [List.isEmpty_iff] at he
          exact he
  · intro d spot rating f hmem h1 h10
    refine ⟨rfl, ?_⟩
    interval_cases rating <;> decide

theorem spot_rows_always_numeric_witness :
    toNumeric (Nat.repr 7) = some (7 : ℚ) ∧
    submitSpot "Library" 7 none = some [header, ["Library", "7"]] := by
  have h := spot_rows_always_numeric.2 .missing "Library" 7 none
    (by simp [load_spots_from_json, fallbackSpots]) (by decide) (by decide)
  refine ⟨h.2, ?_⟩
  rw [h.1]
  rfl

/-- C10: the favorites set only grows: the updated favorites list is the
sorted deduplicated union of the previous favorites and the picked
categories — sorted in ascending code-point order, duplicate-free, and
containing an element exactly when the previous favorites or the current
picks contain it (so it is a superset of the previous favorites). -/
theorem favorites_only_grow (favorites picked : List String) :
    (favUpdate favorites picked).Pairwise (fun a b => strLt a b = true) ∧
    (favUpdate favorites picked).Nodup ∧
    (∀ x, x ∈ favUpdate favorites picked ↔ x ∈ favorites ∨ x ∈ picked) := by
  refine ⟨pairwise_sortedDedupList _, nodup_sortedDedupList _, fun x => ?_⟩
  rw [favUpdate, mem_sortedDedupList, List.mem_append]

end Lab2
